import Mathlib

/-!
Shallow embedding of the zxio vector-I/O adapters and the ops-table dispatch
wrapper from `src/sdk/lib/zxio/private.h`. The scatter/gather core loop
`zxio_do_vector` is declared in `lib/zxio/cpp/vector.h`, which is not part of
this excerpt, so it is modelled from the spec (section 4.2); everything else
is translated from the source.

Buffers are opaque pointers: they are modelled by an arbitrary type `α`.
Machine `size_t` values are modelled by `Nat`; the only subtraction performed
by the source, `length - *offset`, happens under the guard `*offset <= length`
established on entry and preserved by clipping, so truncated `Nat` subtraction
agrees with `size_t` subtraction on every reachable state.
-/

/-- Zircon status code `ZX_OK`. -/
def ZX_OK : Int := 0

/-- Zircon status code `ZX_ERR_INVALID_ARGS` (its value in `zircon/errors.h`). -/
def ZX_ERR_INVALID_ARGS : Int := -10

/-- One `zx_iovec_t` entry of a vector descriptor: an opaque buffer pointer
(type `α`) and its capacity in bytes. -/
structure ZxIovec (α : Type) where
  buffer : α
  capacity : Nat
  deriving DecidableEq

/-- Result of one call to a single-buffer closure: the returned status, the
bytes reported through the closure's `out_actual` out-parameter, and the
closure's captured state after the call. On paths where the source leaves
`out_actual` untouched, `actual` holds a placeholder 0 that no caller reads. -/
structure ClosOut (σ : Type) where
  status : Int
  actual : Nat
  state : σ
  deriving DecidableEq

/-- Result of `zxio_do_vector`: the returned status, the total written through
its `out_actual` out-parameter, and the closure state after the run. -/
structure DoVecOut (σ : Type) where
  status : Int
  total : Nat
  state : σ
  deriving DecidableEq

/-- Modelled from the spec: `zxio_do_vector` is declared in
`lib/zxio/cpp/vector.h`, which is missing from this excerpt; only its caller
`zxio_vmo_do_vector` (src/sdk/lib/zxio/private.h) is present. Spec 4.2:
iterate the descriptor in order; skip zero-length entries without invoking the
closure; invoke the closure with each nonzero entry's buffer and length;
accumulate the bytes moved into the total; stop with success at the first
entry whose closure moves fewer bytes than requested; on a closure error stop
and propagate it, keeping the total accumulated before the failing entry; an
empty descriptor yields a total of zero with success. The C accumulator
variable is rendered as the addition performed by each stack frame. -/
def zxio_do_vector {σ α : Type} (f : σ → α → Nat → ClosOut σ) :
    List (ZxIovec α) → σ → DoVecOut σ
  | [], s => ⟨ZX_OK, 0, s⟩
  | v :: rest, s =>
    if v.capacity = 0 then
      zxio_do_vector f rest s
    else
      let r := f s v.buffer v.capacity
      if r.status ≠ ZX_OK then ⟨r.status, 0, r.state⟩
      else if r.actual < v.capacity then ⟨ZX_OK, r.actual, r.state⟩
      else
        let R := zxio_do_vector f rest r.state
        ⟨R.status, r.actual + R.total, R.state⟩

/-- The closure that `zxio_vmo_do_vector` passes to `zxio_do_vector`
(src/sdk/lib/zxio/private.h lines 31-40). The captured mutable state is the
seek offset `*offset`; `fn` is the backend single-buffer primitive, taking the
buffer, the absolute position `start + *offset`, and the clipped capacity, and
returning a status. On a backend error the closure returns early, leaving
`*offset` and the per-call `out_actual` untouched (the untouched `out_actual`
is modelled as 0; `zxio_do_vector` never reads it on that path). -/
def zxio_vmo_closure {α : Type} (start length : Nat) (fn : α → Nat → Nat → Int) :
    Nat → α → Nat → ClosOut Nat :=
  fun offset buffer capacity₀ =>
    let capacity := min capacity₀ (length - offset)
    let status := fn buffer (start + offset) capacity
    if status ≠ ZX_OK then ⟨status, 0, offset⟩
    else ⟨ZX_OK, capacity, offset + capacity⟩

/-- Result of `zxio_vmo_do_vector`: the returned status, the value written
through `*out_actual` (`none` when the out-parameter is left untouched), and
the final seek offset `*offset`. -/
structure VmoOut where
  status : Int
  outActual : Option Nat
  offset : Nat
  deriving DecidableEq

/-- `zxio_vmo_do_vector` from src/sdk/lib/zxio/private.h lines 24-42: fail
with `ZX_ERR_INVALID_ARGS` when the starting offset strictly exceeds the
resource length, otherwise run `zxio_do_vector` with the bounded closure
`zxio_vmo_closure` over the running offset. -/
def zxio_vmo_do_vector {α : Type} (start length offset : Nat)
    (vector : List (ZxIovec α)) (fn : α → Nat → Nat → Int) : VmoOut :=
  if offset > length then ⟨ZX_ERR_INVALID_ARGS, none, offset⟩
  else
    let r := zxio_do_vector (zxio_vmo_closure start length fn) vector offset
    ⟨r.status, some r.total, r.state⟩

/-- Ghost record of one invocation of the backend single-buffer primitive
`fn` made by the wrapped closure: the buffer, the running offset when the
closure was entered, the entry capacity as requested by `zxio_do_vector`, the
clipped capacity actually passed to `fn`, the status `fn` returned, the bytes
reported through the closure's `out_actual` (placeholder 0 on the error path,
where the source leaves it untouched), and the running offset after the
closure returned. -/
structure BackendCall (α : Type) where
  buffer : α
  offBefore : Nat
  requested : Nat
  clipped : Nat
  status : Int
  actual : Nat
  offAfter : Nat
  deriving DecidableEq

/-- Instrumented form of `zxio_vmo_closure`: identical on the
status/actual/offset components, and additionally appends a ghost record of
the backend invocation to a trace carried in the closure state. -/
def zxio_vmo_closure_traced {α : Type} (start length : Nat)
    (fn : α → Nat → Nat → Int) :
    Nat × List (BackendCall α) → α → Nat → ClosOut (Nat × List (BackendCall α)) :=
  fun s buffer capacity₀ =>
    let r := zxio_vmo_closure start length fn s.1 buffer capacity₀
    ⟨r.status, r.actual,
      (r.state,
        s.2 ++ [⟨buffer, s.1, capacity₀, min capacity₀ (length - s.1),
                 r.status, r.actual, r.state⟩])⟩

/-- Result of the instrumented `zxio_vmo_do_vector`: as `VmoOut`, plus the
ghost trace of every invocation of the backend primitive. -/
structure VmoTracedOut (α : Type) where
  status : Int
  outActual : Option Nat
  offset : Nat
  calls : List (BackendCall α)
  deriving DecidableEq

/-- Instrumented form of `zxio_vmo_do_vector`: identical control flow, with
the ghost trace threaded through the closure state. -/
def zxio_vmo_do_vector_traced {α : Type} (start length offset : Nat)
    (vector : List (ZxIovec α)) (fn : α → Nat → Nat → Int) : VmoTracedOut α :=
  if offset > length then ⟨ZX_ERR_INVALID_ARGS, none, offset, []⟩
  else
    let r := zxio_do_vector (zxio_vmo_closure_traced start length fn) vector (offset, [])
    ⟨r.status, some r.total, r.state.1, r.state.2⟩

/-- Ghost record of one invocation of a generic single-buffer closure by
`zxio_do_vector`: the buffer, the requested capacity (the entry's length), the
status the closure returned, and the bytes it reported moved. -/
structure ClosCall (α : Type) where
  buffer : α
  requested : Nat
  status : Int
  actual : Nat
  deriving DecidableEq

/-- Instrumentation of an arbitrary single-buffer closure `g`: identical on
the status/actual/state components, and additionally appends a ghost record of
the invocation to a trace carried alongside `g`'s state. -/
def traceClosure {σ α : Type} (g : σ → α → Nat → ClosOut σ) :
    σ × List (ClosCall α) → α → Nat → ClosOut (σ × List (ClosCall α)) :=
  fun s buffer capacity =>
    let r := g s.1 buffer capacity
    ⟨r.status, r.actual, (r.state, s.2 ++ [⟨buffer, capacity, r.status, r.actual⟩])⟩

/-- `zxio_do_vector` run with an instrumented closure, starting from an empty
ghost trace. -/
def zxio_do_vector_traced {σ α : Type} (g : σ → α → Nat → ClosOut σ)
    (vector : List (ZxIovec α)) (s : σ) : DoVecOut (σ × List (ClosCall α)) :=
  zxio_do_vector (traceClosure g) vector (s, [])

/-- Sum of the bytes reported moved across a list of closure-call records. -/
def sumActual {α : Type} (l : List (ClosCall α)) : Nat :=
  (l.map (fun c => c.actual)).sum

/-- Sum of the bytes reported moved across the closure-call records whose
invocation completed with `ZX_OK`. -/
def sumActualOk {α : Type} (l : List (ClosCall α)) : Nat :=
  sumActual (l.filter (fun c => c.status == ZX_OK))

/-- Sum of the bytes reported moved across a list of backend-call records. -/
def sumBackendActual {α : Type} (l : List (BackendCall α)) : Nat :=
  (l.map (fun c => c.actual)).sum

/-- `std::mem_fn` applied to a member function pointer (private.h line 81):
wraps the member function as a callable taking the object first. The variadic
argument pack is modelled by a single value of an arbitrary type `β`. -/
def mem_fn {T β : Type} (fn : T → β → Int) : T → β → Int :=
  fun t a => fn t a

/-- `HasIo::Adaptor<T>::FromImpl` (private.h lines 87-91): peels the leading
`zxio_t*` argument off the pack, reinterprets it as `T*` (the
`reinterpret_cast` is modelled by an abstract function from the header type
`Z` to `T`), and invokes the wrapped member function on the instance with the
remaining arguments. -/
def adaptorFromImpl {Z T β : Type} (reinterpret : Z → T) (memfn : T → β → Int)
    (hdr : Z) (a : β) : Int :=
  memfn (reinterpret hdr) a

/-- `HasIo::Adaptor<T>::From<&fn>` (private.h lines 79-84): wrap the member
operation with `std::mem_fn` and hand the full argument list to `FromImpl`. -/
def adaptorFrom {Z T β : Type} (reinterpret : Z → T) (fn : T → β → Int)
    (hdr : Z) (a : β) : Int :=
  adaptorFromImpl reinterpret (mem_fn fn) hdr a

/-- Follows the spec's words (4.1 contract): take the generic header pointer
first, reinterpret it as a pointer to `T`, and invoke the member operation on
it with the remaining arguments forwarded unchanged. -/
def specDispatchCall {Z T β : Type} (reinterpret : Z → T) (fn : T → β → Int)
    (hdr : Z) (a : β) : Int :=
  fn (reinterpret hdr) a

/-- Concrete backend primitive that always succeeds, used to evaluate the
theorems at concrete inputs. -/
def fnOkW : Unit → Nat → Nat → Int := fun _ _ _ => ZX_OK

/-- Concrete backend primitive that always fails with an arbitrary non-OK
status (the value of `ZX_ERR_NOT_SUPPORTED`), used to evaluate the theorems
at concrete inputs. -/
def fnErrW : Unit → Nat → Nat → Int := fun _ _ _ => -2

/-- Concrete single-buffer closure that always moves the full requested
capacity, used to evaluate the theorems at concrete inputs. -/
def gOkW : Unit → Unit → Nat → ClosOut Unit := fun _ _ cap => ⟨ZX_OK, cap, ()⟩

/-- Concrete stateful single-buffer closure that moves the full capacity on
its first call and fails with a non-OK status afterwards, used to evaluate
the theorems at concrete inputs. -/
def gErrW : Nat → Unit → Nat → ClosOut Nat :=
  fun n _ cap => if n = 0 then ⟨ZX_OK, cap, 1⟩ else ⟨-2, 0, n⟩

/-- Concrete single-buffer closure that moves at most 2 bytes per call, used
to evaluate the theorems at concrete inputs. -/
def gShortW : Unit → Unit → Nat → ClosOut Unit :=
  fun _ _ cap => ⟨ZX_OK, min cap 2, ()⟩

/-- Faithfulness of one backend-call record: the clipped capacity is the
minimum of the requested capacity and the remaining room
`length - offBefore`, the status is what the backend primitive `fn` returned
at the absolute position with the clipped capacity, the requested capacity is
nonzero, on success the reported bytes equal the clipped capacity and the
offset advances by exactly them, and on failure the reported-bytes
placeholder is 0 and the offset does not move. -/
def VmoCallFaithful {α : Type} (start length : Nat) (fn : α → Nat → Nat → Int)
    (c : BackendCall α) : Prop :=
  c.clipped = min c.requested (length - c.offBefore) ∧
  c.status = fn c.buffer (start + c.offBefore) c.clipped ∧
  c.requested ≠ 0 ∧
  (c.status = ZX_OK → c.actual = c.clipped ∧ c.offAfter = c.offBefore + c.clipped) ∧
  (c.status ≠ ZX_OK → c.actual = 0 ∧ c.offAfter = c.offBefore)

/-- Running `zxio_do_vector` with an instrumented closure from a nonempty
initial trace appends the new records after the initial ones and changes
nothing else. -/
theorem do_vector_trace_shift {σ α : Type} (g : σ → α → Nat → ClosOut σ) :
    ∀ (v : List (ZxIovec α)) (s : σ) (tr : List (ClosCall α)),
      zxio_do_vector (traceClosure g) v (s, tr) =
        ⟨(zxio_do_vector (traceClosure g) v (s, [])).status,
         (zxio_do_vector (traceClosure g) v (s, [])).total,
         ((zxio_do_vector (traceClosure g) v (s, [])).state.1,
          tr ++ (zxio_do_vector (traceClosure g) v (s, [])).state.2)⟩
  | [], s, tr => by simp [zxio_do_vector]
  | v :: rest, s, tr => by
    by_cases hc : v.capacity = 0
    · simpa [zxio_do_vector, hc] using do_vector_trace_shift g rest s tr
    · by_cases hs : (g s v.buffer v.capacity).status = ZX_OK
      · by_cases ha : (g s v.buffer v.capacity).actual < v.capacity
        · simp [zxio_do_vector, hc, traceClosure, hs, ha]
        · have h1 := do_vector_trace_shift g rest (g s v.buffer v.capacity).state
            (tr ++ [⟨v.buffer, v.capacity, (g s v.buffer v.capacity).status,
                     (g s v.buffer v.capacity).actual⟩])
          have h2 := do_vector_trace_shift g rest (g s v.buffer v.capacity).state
            [⟨v.buffer, v.capacity, (g s v.buffer v.capacity).status,
              (g s v.buffer v.capacity).actual⟩]
          simp only [zxio_do_vector, hc, traceClosure, hs, ha] at h1 h2 ⊢
          simp [hs, ha, h1, h2]
      · simp [zxio_do_vector, hc, traceClosure, hs]

/-- Running `zxio_do_vector` with the instrumented bounded closure from a
nonempty initial trace appends the new records after the initial ones and
changes nothing else. -/
theorem vmo_trace_shift {α : Type} (start length : Nat) (fn : α → Nat → Nat → Int) :
    ∀ (v : List (ZxIovec α)) (o : Nat) (tr : List (BackendCall α)),
      zxio_do_vector (zxio_vmo_closure_traced start length fn) v (o, tr) =
        ⟨(zxio_do_vector (zxio_vmo_closure_traced start length fn) v (o, [])).status,
         (zxio_do_vector (zxio_vmo_closure_traced start length fn) v (o, [])).total,
         ((zxio_do_vector (zxio_vmo_closure_traced start length fn) v (o, [])).state.1,
          tr ++ (zxio_do_vector (zxio_vmo_closure_traced start length fn) v (o, [])).state.2)⟩
  | [], o, tr => by simp [zxio_do_vector]
  | v :: rest, o, tr => by
    by_cases hc : v.capacity = 0
    · simpa [zxio_do_vector, hc] using vmo_trace_shift start length fn rest o tr
    · by_cases hs : (zxio_vmo_closure start length fn o v.buffer v.capacity).status = ZX_OK
      · by_cases ha : (zxio_vmo_closure start length fn o v.buffer v.capacity).actual
            < v.capacity
        · simp [zxio_do_vector, hc, zxio_vmo_closure_traced, hs, ha]
        · have h1 := vmo_trace_shift start length fn rest
            (zxio_vmo_closure start length fn o v.buffer v.capacity).state
            (tr ++ [⟨v.buffer, o, v.capacity, min v.capacity (length - o),
                     (zxio_vmo_closure start length fn o v.buffer v.capacity).status,
                     (zxio_vmo_closure start length fn o v.buffer v.capacity).actual,
                     (zxio_vmo_closure start length fn o v.buffer v.capacity).state⟩])
          have h2 := vmo_trace_shift start length fn rest
            (zxio_vmo_closure start length fn o v.buffer v.capacity).state
            [⟨v.buffer, o, v.capacity, min v.capacity (length - o),
              (zxio_vmo_closure start length fn o v.buffer v.capacity).status,
              (zxio_vmo_closure start length fn o v.buffer v.capacity).actual,
              (zxio_vmo_closure start length fn o v.buffer v.capacity).state⟩]
          simp only [zxio_do_vector, hc, zxio_vmo_closure_traced, hs, ha] at h1 h2 ⊢
          simp [hs, ha, h1, h2]
      · simp [zxio_do_vector, hc, zxio_vmo_closure_traced, hs]

/-- Characterization of one step of the bounded closure: the status is what
the backend primitive returns at the absolute position with the clipped
capacity; on success the reported bytes equal the clipped capacity and the
offset advances by them; on failure nothing moves. -/
theorem vmo_closure_spec {α : Type} (start length : Nat) (fn : α → Nat → Nat → Int)
    (o : Nat) (b : α) (cap : Nat) :
    (zxio_vmo_closure start length fn o b cap).status =
      fn b (start + o) (min cap (length - o)) ∧
    ((zxio_vmo_closure start length fn o b cap).status = ZX_OK →
      (zxio_vmo_closure start length fn o b cap).actual = min cap (length - o) ∧
      (zxio_vmo_closure start length fn o b cap).state = o + min cap (length - o)) ∧
    ((zxio_vmo_closure start length fn o b cap).status ≠ ZX_OK →
      (zxio_vmo_closure start length fn o b cap).actual = 0 ∧
      (zxio_vmo_closure start length fn o b cap).state = o) := by
  by_cases h : fn b (start + o) (min cap (length - o)) = ZX_OK <;>
    simp [zxio_vmo_closure, h]

/-- The instrumented bounded run agrees with the plain one on every non-ghost
component. -/
theorem vmo_traced_agrees {α : Type} (start length : Nat) (fn : α → Nat → Nat → Int) :
    ∀ (v : List (ZxIovec α)) (o : Nat),
      (zxio_do_vector (zxio_vmo_closure_traced start length fn) v (o, [])).status =
        (zxio_do_vector (zxio_vmo_closure start length fn) v o).status ∧
      (zxio_do_vector (zxio_vmo_closure_traced start length fn) v (o, [])).total =
        (zxio_do_vector (zxio_vmo_closure start length fn) v o).total ∧
      (zxio_do_vector (zxio_vmo_closure_traced start length fn) v (o, [])).state.1 =
        (zxio_do_vector (zxio_vmo_closure start length fn) v o).state
  | [], o => by simp [zxio_do_vector]
  | v :: rest, o => by
    by_cases hc : v.capacity = 0
    · simpa [zxio_do_vector, hc] using vmo_traced_agrees start length fn rest o
    · by_cases hs : (zxio_vmo_closure start length fn o v.buffer v.capacity).status = ZX_OK
      · by_cases ha : (zxio_vmo_closure start length fn o v.buffer v.capacity).actual
            < v.capacity
        · simp [zxio_do_vector, hc, zxio_vmo_closure_traced, hs, ha]
        · have h1 := vmo_trace_shift start length fn rest
            (zxio_vmo_closure start length fn o v.buffer v.capacity).state
            [⟨v.buffer, o, v.capacity, min v.capacity (length - o),
              (zxio_vmo_closure start length fn o v.buffer v.capacity).status,
              (zxio_vmo_closure start length fn o v.buffer v.capacity).actual,
              (zxio_vmo_closure start length fn o v.buffer v.capacity).state⟩]
          have h2 := vmo_traced_agrees start length fn rest
            (zxio_vmo_closure start length fn o v.buffer v.capacity).state
          simp only [zxio_do_vector, hc, zxio_vmo_closure_traced, hs, ha] at h1 ⊢
          simp [hs, ha, h1, h2.1, h2.2.1, h2.2.2]
      · simp [zxio_do_vector, hc, zxio_vmo_closure_traced, hs]


/-- Unfolding equation: the empty descriptor returns success with total 0 and
the state untouched. -/
theorem do_vector_nil {σ α : Type} (f : σ → α → Nat → ClosOut σ) (s : σ) :
    zxio_do_vector f ([] : List (ZxIovec α)) s = ⟨ZX_OK, 0, s⟩ := rfl

/-- Unfolding equation: a zero-capacity entry is skipped. -/
theorem do_vector_zero {σ α : Type} (f : σ → α → Nat → ClosOut σ) (v : ZxIovec α)
    (rest : List (ZxIovec α)) (s : σ) (hc : v.capacity = 0) :
    zxio_do_vector f (v :: rest) s = zxio_do_vector f rest s := by
  simp [zxio_do_vector, hc]

/-- Unfolding equation: the closure fails on a nonzero entry. -/
theorem do_vector_err {σ α : Type} (f : σ → α → Nat → ClosOut σ) (v : ZxIovec α)
    (rest : List (ZxIovec α)) (s : σ) (hc : v.capacity ≠ 0)
    (hs : (f s v.buffer v.capacity).status ≠ ZX_OK) :
    zxio_do_vector f (v :: rest) s =
      ⟨(f s v.buffer v.capacity).status, 0, (f s v.buffer v.capacity).state⟩ := by
  simp [zxio_do_vector, hc, hs]

/-- Unfolding equation: the closure succeeds on a nonzero entry but moves
fewer bytes than requested. -/
theorem do_vector_short {σ α : Type} (f : σ → α → Nat → ClosOut σ) (v : ZxIovec α)
    (rest : List (ZxIovec α)) (s : σ) (hc : v.capacity ≠ 0)
    (hs : (f s v.buffer v.capacity).status = ZX_OK)
    (ha : (f s v.buffer v.capacity).actual < v.capacity) :
    zxio_do_vector f (v :: rest) s =
      ⟨ZX_OK, (f s v.buffer v.capacity).actual, (f s v.buffer v.capacity).state⟩ := by
  simp [zxio_do_vector, hc, hs, ha]

/-- Unfolding equation: the closure succeeds on a nonzero entry and does not
fall short, so iteration continues on the remaining entries. -/
theorem do_vector_cont {σ α : Type} (f : σ → α → Nat → ClosOut σ) (v : ZxIovec α)
    (rest : List (ZxIovec α)) (s : σ) (hc : v.capacity ≠ 0)
    (hs : (f s v.buffer v.capacity).status = ZX_OK)
    (ha : ¬ (f s v.buffer v.capacity).actual < v.capacity) :
    zxio_do_vector f (v :: rest) s =
      ⟨(zxio_do_vector f rest (f s v.buffer v.capacity).state).status,
       (f s v.buffer v.capacity).actual +
         (zxio_do_vector f rest (f s v.buffer v.capacity).state).total,
       (zxio_do_vector f rest (f s v.buffer v.capacity).state).state⟩ := by
  simp [zxio_do_vector, hc, hs, ha]

/-- Unfolding equation for the instrumented bounded closure. -/
theorem vmo_closure_traced_eq {α : Type} (start length : Nat)
    (fn : α → Nat → Nat → Int) (o : Nat) (tr : List (BackendCall α)) (b : α)
    (cap : Nat) :
    zxio_vmo_closure_traced start length fn (o, tr) b cap =
      ⟨(zxio_vmo_closure start length fn o b cap).status,
       (zxio_vmo_closure start length fn o b cap).actual,
       ((zxio_vmo_closure start length fn o b cap).state,
        tr ++ [⟨b, o, cap, min cap (length - o),
          (zxio_vmo_closure start length fn o b cap).status,
          (zxio_vmo_closure start length fn o b cap).actual,
          (zxio_vmo_closure start length fn o b cap).state⟩])⟩ := rfl

/-- The ghost record appended by the instrumented bounded closure is
faithful, provided the entry had nonzero capacity. -/
theorem vmo_record_faithful {α : Type} (start length : Nat)
    (fn : α → Nat → Nat → Int) (o : Nat) (b : α) (cap : Nat) (hcap : cap ≠ 0) :
    VmoCallFaithful start length fn
      ⟨b, o, cap, min cap (length - o),
        (zxio_vmo_closure start length fn o b cap).status,
        (zxio_vmo_closure start length fn o b cap).actual,
        (zxio_vmo_closure start length fn o b cap).state⟩ := by
  have hspec := vmo_closure_spec start length fn o b cap
  unfold VmoCallFaithful
  exact ⟨rfl, hspec.1, hcap, hspec.2.1, hspec.2.2⟩

/-- Every record in the ghost trace of a bounded run is faithful. -/
theorem vmo_calls_mem {α : Type} (start length : Nat) (fn : α → Nat → Nat → Int) :
    ∀ (v : List (ZxIovec α)) (o : Nat) (c : BackendCall α),
      c ∈ (zxio_do_vector (zxio_vmo_closure_traced start length fn) v (o, [])).state.2 →
        VmoCallFaithful start length fn c
  | [], o, c => by simp [zxio_do_vector]
  | v :: rest, o, c => by
    by_cases hc : v.capacity = 0
    · rw [do_vector_zero _ _ _ _ hc]
      exact vmo_calls_mem start length fn rest o c
    · have hstat : (zxio_vmo_closure_traced start length fn
          (o, ([] : List (BackendCall α))) v.buffer v.capacity).status =
          (zxio_vmo_closure start length fn o v.buffer v.capacity).status := rfl
      have hact : (zxio_vmo_closure_traced start length fn
          (o, ([] : List (BackendCall α))) v.buffer v.capacity).actual =
          (zxio_vmo_closure start length fn o v.buffer v.capacity).actual := rfl
      have hstate : (zxio_vmo_closure_traced start length fn
          (o, ([] : List (BackendCall α))) v.buffer v.capacity).state =
          ((zxio_vmo_closure start length fn o v.buffer v.capacity).state,
           [⟨v.buffer, o, v.capacity, min v.capacity (length - o),
             (zxio_vmo_closure start length fn o v.buffer v.capacity).status,
             (zxio_vmo_closure start length fn o v.buffer v.capacity).actual,
             (zxio_vmo_closure start length fn o v.buffer v.capacity).state⟩]) := rfl
    
      by_cases hs : (zxio_vmo_closure start length fn o v.buffer v.capacity).status = ZX_OK
      · by_cases ha : (zxio_vmo_closure start length fn o v.buffer v.capacity).actual
            < v.capacity
        · rw [do_vector_short _ _ _ _ hc (by rw [hstat]; exact hs) (by rw [hact]; exact ha)]
          rw [hstate]
          intro hmem
          simp at hmem
          subst hmem
          exact vmo_record_faithful start length fn o v.buffer v.capacity hc
        · rw [do_vector_cont _ _ _ _ hc (by rw [hstat]; exact hs) (by rw [hact]; exact ha)]
          rw [hstate]
          rw [vmo_trace_shift start length fn rest
            (zxio_vmo_closure start length fn o v.buffer v.capacity).state
            [⟨v.buffer, o, v.capacity, min v.capacity (length - o),
              (zxio_vmo_closure start length fn o v.buffer v.capacity).status,
              (zxio_vmo_closure start length fn o v.buffer v.capacity).actual,
              (zxio_vmo_closure start length fn o v.buffer v.capacity).state⟩]]
          intro hmem
          simp at hmem
          rcases hmem with hmem | hmem
          · subst hmem
            exact vmo_record_faithful start length fn o v.buffer v.capacity hc
          · exact vmo_calls_mem start length fn rest
              (zxio_vmo_closure start length fn o v.buffer v.capacity).state c hmem
      · rw [do_vector_err _ _ _ _ hc (by rw [hstat]; exact hs)]
        rw [hstate]
        intro hmem
        simp at hmem
        subst hmem
        exact vmo_record_faithful start length fn o v.buffer v.capacity hc

/-- The bounded run preserves the cursor invariant: starting from an offset at
most the resource length, the final offset is still at most the length. -/
theorem vmo_offset_invariant {α : Type} (start length : Nat)
    (fn : α → Nat → Nat → Int) :
    ∀ (v : List (ZxIovec α)) (o : Nat), o ≤ length →
      (zxio_do_vector (zxio_vmo_closure start length fn) v o).state ≤ length
  | [], o, ho => by simpa [zxio_do_vector] using ho
  | v :: rest, o, ho => by
    have hspec := vmo_closure_spec start length fn o v.buffer v.capacity
    by_cases hc : v.capacity = 0
    · rw [do_vector_zero _ _ _ _ hc]
      exact vmo_offset_invariant start length fn rest o ho
    · by_cases hs : (zxio_vmo_closure start length fn o v.buffer v.capacity).status = ZX_OK
      · have hst : (zxio_vmo_closure start length fn o v.buffer v.capacity).state
            ≤ length := by
          rcases hspec.2.1 hs with ⟨-, h2⟩
          rw [h2]
          have := Nat.min_le_right v.capacity (length - o)
          omega
        by_cases ha : (zxio_vmo_closure start length fn o v.buffer v.capacity).actual
            < v.capacity
        · rw [do_vector_short _ _ _ _ hc hs ha]
          exact hst
        · rw [do_vector_cont _ _ _ _ hc hs ha]
          exact vmo_offset_invariant start length fn rest
            (zxio_vmo_closure start length fn o v.buffer v.capacity).state hst
      · rw [do_vector_err _ _ _ _ hc hs]
        rcases hspec.2.2 hs with ⟨-, h2⟩
        simpa [h2] using ho

/-- C1: for every call to the bounded vector adapter whose starting seek
offset strictly exceeds the resource length, the operation fails with
`ZX_ERR_INVALID_ARGS`, the backend single-buffer primitive is never invoked
(the ghost trace is empty), the seek offset is unchanged, and `*out_actual`
is never written; the result does not depend on the vector or on the backend
primitive. -/
theorem vmo_vector_early_invalid_args {α : Type} (start length offset : Nat)
    (vector : List (ZxIovec α)) (fn : α → Nat → Nat → Int)
    (h : length < offset) :
    zxio_vmo_do_vector_traced start length offset vector fn =
      ⟨ZX_ERR_INVALID_ARGS, none, offset, []⟩ := by
  simp [zxio_vmo_do_vector_traced, h]

/-- Witness for C1 at a concrete input. -/
theorem vmo_vector_early_invalid_args_witness :
    zxio_vmo_do_vector_traced 0 5 7 [⟨(), 3⟩] fnOkW =
      ⟨ZX_ERR_INVALID_ARGS, none, 7, []⟩ :=
  vmo_vector_early_invalid_args 0 5 7 [⟨(), 3⟩] fnOkW (by decide)

/-- C2: when the starting offset is at most the resource length, the capacity
the bounded adapter passes to the backend primitive at each invocation equals
`min requested (length - offset)`, where `offset` is the running offset
current at that invocation. -/
theorem vmo_vector_clips_capacity {α : Type} (start length offset : Nat)
    (vector : List (ZxIovec α)) (fn : α → Nat → Nat → Int)
    (h : offset ≤ length) (c : BackendCall α)
    (hc : c ∈ (zxio_vmo_do_vector_traced start length offset vector fn).calls) :
    c.clipped = min c.requested (length - c.offBefore) := by
  have hng : ¬ offset > length := not_lt.mpr h
  have hcalls : (zxio_vmo_do_vector_traced start length offset vector fn).calls =
      (zxio_do_vector (zxio_vmo_closure_traced start length fn) vector
        (offset, [])).state.2 := by
    simp [zxio_vmo_do_vector_traced, hng]
  rw [hcalls] at hc
  exact (vmo_calls_mem start length fn vector offset c hc).1

/-- Witness for C2 at a concrete input. -/
theorem vmo_vector_clips_capacity_witness : (4 : Nat) = min 4 (10 - 0) :=
  vmo_vector_clips_capacity 0 10 0 [⟨(), 4⟩] fnOkW (by decide)
    ⟨(), 0, 4, 4, ZX_OK, 4, 4⟩ (by decide)

/-- C3: the bounded-file cursor invariant is preserved: a bounded-adapter
call that starts with `offset ≤ length` ends with the final seek offset still
at most `length`, whatever status it returns. -/
theorem vmo_vector_offset_le_length {α : Type} (start length offset : Nat)
    (vector : List (ZxIovec α)) (fn : α → Nat → Nat → Int)
    (h : offset ≤ length) :
    (zxio_vmo_do_vector start length offset vector fn).offset ≤ length := by
  have hng : ¬ offset > length := not_lt.mpr h
  unfold zxio_vmo_do_vector
  rw [if_neg hng]
  exact vmo_offset_invariant start length fn vector offset h

/-- Witness for C3 at a concrete input. -/
theorem vmo_vector_offset_le_length_witness :
    (zxio_vmo_do_vector 0 10 3 [⟨(), 4⟩] fnOkW).offset ≤ 10 :=
  vmo_vector_offset_le_length 0 10 3 [⟨(), 4⟩] fnOkW (by decide)

/-- C4: at every backend invocation recorded during a bounded run, a
successful invocation advances the running seek offset by exactly the bytes
that call reported through `out_actual`, and a failed invocation does not
advance it. -/
theorem vmo_vector_offset_advance {α : Type} (start length offset : Nat)
    (vector : List (ZxIovec α)) (fn : α → Nat → Nat → Int) (c : BackendCall α)
    (hc : c ∈ (zxio_vmo_do_vector_traced start length offset vector fn).calls) :
    (c.status = ZX_OK → c.offAfter = c.offBefore + c.actual) ∧
    (c.status ≠ ZX_OK → c.offAfter = c.offBefore) := by
  by_cases hlen : offset > length
  · simp [zxio_vmo_do_vector_traced, hlen] at hc
  · have hcalls : (zxio_vmo_do_vector_traced start length offset vector fn).calls =
        (zxio_do_vector (zxio_vmo_closure_traced start length fn) vector
          (offset, [])).state.2 := by
      simp [zxio_vmo_do_vector_traced, hlen]
    rw [hcalls] at hc
    have hf := vmo_calls_mem start length fn vector offset c hc
    refine ⟨fun h => ?_, fun h => (hf.2.2.2.2 h).2⟩
    rcases hf.2.2.2.1 h with ⟨h1, h2⟩
    rw [h2, h1]

/-- Witness for C4 at a concrete input: a failing backend invocation leaves
the offset where it was. -/
theorem vmo_vector_offset_advance_witness :
    ((-2 : Int) = ZX_OK → (0 : Nat) = 0 + 0) ∧ ((-2 : Int) ≠ ZX_OK → (0 : Nat) = 0) :=
  vmo_vector_offset_advance 0 10 0 [⟨(), 3⟩] fnErrW ⟨(), 0, 3, 3, -2, 0, 0⟩ (by decide)

/-- C8: the adapted function produced by the dispatch wrapper equals the
direct invocation of the member operation on the instance obtained by
reinterpreting the header pointer, with the remaining arguments forwarded
unchanged, for all inputs. -/
theorem adaptor_from_refines_spec {Z T β : Type} (reinterpret : Z → T)
    (fn : T → β → Int) (hdr : Z) (a : β) :
    adaptorFrom reinterpret fn hdr a = specDispatchCall reinterpret fn hdr a := rfl

/-- Error-run structure of a bounded run: when the run ends with a non-OK
status, the ghost trace decomposes into the successful calls followed by the
single failing call, the failing call's status is the run's status, the final
offset is the failing call's entry offset, and that offset is the initial one
plus the bytes moved by the successful calls. -/
theorem vmo_error_structure {α : Type} (start length : Nat)
    (fn : α → Nat → Nat → Int) :
    ∀ (v : List (ZxIovec α)) (o : Nat),
      (zxio_do_vector (zxio_vmo_closure_traced start length fn) v (o, [])).status ≠ ZX_OK →
      ∃ pre cfail,
        (zxio_do_vector (zxio_vmo_closure_traced start length fn) v (o, [])).state.2 =
          pre ++ [cfail] ∧
        cfail.status =
          (zxio_do_vector (zxio_vmo_closure_traced start length fn) v (o, [])).status ∧
        (zxio_do_vector (zxio_vmo_closure_traced start length fn) v (o, [])).state.1 =
          cfail.offBefore ∧
        (∀ c ∈ pre, c.status = ZX_OK) ∧
        cfail.offBefore = o + sumBackendActual pre
  | [], o => by intro h; simp [zxio_do_vector] at h
  | v :: rest, o => by
    have hspec := vmo_closure_spec start length fn o v.buffer v.capacity
    by_cases hc : v.capacity = 0
    · rw [do_vector_zero _ _ _ _ hc]
      exact vmo_error_structure start length fn rest o
    · have hstat : (zxio_vmo_closure_traced start length fn
          (o, ([] : List (BackendCall α))) v.buffer v.capacity).status =
          (zxio_vmo_closure start length fn o v.buffer v.capacity).status := rfl
      have hact : (zxio_vmo_closure_traced start length fn
          (o, ([] : List (BackendCall α))) v.buffer v.capacity).actual =
          (zxio_vmo_closure start length fn o v.buffer v.capacity).actual := rfl
      have hstate : (zxio_vmo_closure_traced start length fn
          (o, ([] : List (BackendCall α))) v.buffer v.capacity).state =
          ((zxio_vmo_closure start length fn o v.buffer v.capacity).state,
           [⟨v.buffer, o, v.capacity, min v.capacity (length - o),
             (zxio_vmo_closure start length fn o v.buffer v.capacity).status,
             (zxio_vmo_closure start length fn o v.buffer v.capacity).actual,
             (zxio_vmo_closure start length fn o v.buffer v.capacity).state⟩]) := rfl
      by_cases hs : (zxio_vmo_closure start length fn o v.buffer v.capacity).status = ZX_OK
      · by_cases ha : (zxio_vmo_closure start length fn o v.buffer v.capacity).actual
            < v.capacity
        · rw [do_vector_short _ _ _ _ hc (by rw [hstat]; exact hs) (by rw [hact]; exact ha)]
          intro h
          exact absurd rfl h
        · rw [do_vector_cont _ _ _ _ hc (by rw [hstat]; exact hs) (by rw [hact]; exact ha)]
          rw [hstate]
          rw [vmo_trace_shift start length fn rest
            (zxio_vmo_closure start length fn o v.buffer v.capacity).state
            [⟨v.buffer, o, v.capacity, min v.capacity (length - o),
              (zxio_vmo_closure start length fn o v.buffer v.capacity).status,
              (zxio_vmo_closure start length fn o v.buffer v.capacity).actual,
              (zxio_vmo_closure start length fn o v.buffer v.capacity).state⟩]]
          intro h
          obtain ⟨pre, cfail, h1, h2, h3, h4, h5⟩ :=
            vmo_error_structure start length fn rest
              (zxio_vmo_closure start length fn o v.buffer v.capacity).state h
          refine ⟨⟨v.buffer, o, v.capacity, min v.capacity (length - o),
              (zxio_vmo_closure start length fn o v.buffer v.capacity).status,
              (zxio_vmo_closure start length fn o v.buffer v.capacity).actual,
              (zxio_vmo_closure start length fn o v.buffer v.capacity).state⟩ :: pre,
            cfail, ?_, ?_, ?_, ?_, ?_⟩
          · simp [h1]
          · exact h2
          · exact h3
          · intro c hcm
            rcases List.mem_cons.mp hcm with hcm | hcm
            · rw [hcm]; exact hs
            · exact h4 c hcm
          · have hadv := (hspec.2.1 hs).2
            have hactv := (hspec.2.1 hs).1
            rw [h5, hadv]
            simp [sumBackendActual, hactv]
            omega
      · rw [do_vector_err _ _ _ _ hc (by rw [hstat]; exact hs)]
        rw [hstate]
        intro h
        refine ⟨[], ⟨v.buffer, o, v.capacity, min v.capacity (length - o),
            (zxio_vmo_closure start length fn o v.buffer v.capacity).status,
            (zxio_vmo_closure start length fn o v.buffer v.capacity).actual,
            (zxio_vmo_closure start length fn o v.buffer v.capacity).state⟩,
          by simp, rfl, ?_, by simp, ?_⟩
        · exact (hspec.2.2 hs).2
        · simp [sumBackendActual]

/-- C9: if a bounded run fails because the backend primitive returned an
error on some entry, the ghost trace is the successful calls followed by the
failing one, the failing call did not advance the seek offset, and the final
seek offset equals the starting offset plus the bytes moved by exactly the
calls that completed successfully before the failure. -/
theorem vmo_vector_error_offset {α : Type} (start length offset : Nat)
    (vector : List (ZxIovec α)) (fn : α → Nat → Nat → Int)
    (h : offset ≤ length)
    (hfail : (zxio_vmo_do_vector_traced start length offset vector fn).status ≠ ZX_OK) :
    ∃ pre cfail,
      (zxio_vmo_do_vector_traced start length offset vector fn).calls =
        pre ++ [cfail] ∧
      cfail.status = (zxio_vmo_do_vector_traced start length offset vector fn).status ∧
      cfail.offAfter = cfail.offBefore ∧
      (∀ c ∈ pre, c.status = ZX_OK) ∧
      (zxio_vmo_do_vector_traced start length offset vector fn).offset =
        cfail.offBefore ∧
      (zxio_vmo_do_vector_traced start length offset vector fn).offset =
        offset + sumBackendActual pre := by
  have hng : ¬ offset > length := not_lt.mpr h
  have hrw : zxio_vmo_do_vector_traced start length offset vector fn =
      ⟨(zxio_do_vector (zxio_vmo_closure_traced start length fn) vector
          (offset, [])).status,
       some (zxio_do_vector (zxio_vmo_closure_traced start length fn) vector
          (offset, [])).total,
       (zxio_do_vector (zxio_vmo_closure_traced start length fn) vector
          (offset, [])).state.1,
       (zxio_do_vector (zxio_vmo_closure_traced start length fn) vector
          (offset, [])).state.2⟩ := by
    simp [zxio_vmo_do_vector_traced, hng]
  rw [hrw] at hfail ⊢
  obtain ⟨pre, cfail, h1, h2, h3, h4, h5⟩ :=
    vmo_error_structure start length fn vector offset hfail
  have hmem : cfail ∈ (zxio_do_vector (zxio_vmo_closure_traced start length fn) vector
      (offset, [])).state.2 := by
    rw [h1]
    exact List.mem_append_right pre (List.mem_singleton.mpr rfl)
  have hfailc : cfail.status ≠ ZX_OK := fun hco => hfail (h2 ▸ hco)
  have hnoadv := ((vmo_calls_mem start length fn vector offset cfail hmem).2.2.2.2
    hfailc).2
  exact ⟨pre, cfail, h1, h2, hnoadv, h4, h3, by rw [h3, h5]⟩

/-- Witness for C9 at a concrete input. -/
theorem vmo_vector_error_offset_witness :
    ∃ pre cfail,
      (zxio_vmo_do_vector_traced 0 10 0 [⟨(), 3⟩] fnErrW).calls = pre ++ [cfail] ∧
      cfail.status = (zxio_vmo_do_vector_traced 0 10 0 [⟨(), 3⟩] fnErrW).status ∧
      cfail.offAfter = cfail.offBefore ∧
      (∀ c ∈ pre, c.status = ZX_OK) ∧
      (zxio_vmo_do_vector_traced 0 10 0 [⟨(), 3⟩] fnErrW).offset = cfail.offBefore ∧
      (zxio_vmo_do_vector_traced 0 10 0 [⟨(), 3⟩] fnErrW).offset =
        0 + sumBackendActual pre :=
  vmo_vector_error_offset 0 10 0 [⟨(), 3⟩] fnErrW (by decide) (by decide)

/-- Accounting in a generic instrumented run: the total equals the sum of the
bytes reported moved by the calls that completed with `ZX_OK`; every call
before the last one succeeded without falling short; and a failing run
decomposes into the successful calls followed by the failing call, whose
status the adapter propagates while keeping the total accumulated before it. -/
theorem do_vector_accounting {σ α : Type} (g : σ → α → Nat → ClosOut σ) :
    ∀ (v : List (ZxIovec α)) (s : σ),
      (zxio_do_vector (traceClosure g) v (s, [])).total =
        sumActualOk (zxio_do_vector (traceClosure g) v (s, [])).state.2 ∧
      (∀ c ∈ ((zxio_do_vector (traceClosure g) v (s, [])).state.2).dropLast,
        c.status = ZX_OK ∧ ¬ c.actual < c.requested) ∧
      ((zxio_do_vector (traceClosure g) v (s, [])).status ≠ ZX_OK →
        ∃ pre cfail,
          (zxio_do_vector (traceClosure g) v (s, [])).state.2 = pre ++ [cfail] ∧
          cfail.status = (zxio_do_vector (traceClosure g) v (s, [])).status ∧
          (∀ c ∈ pre, c.status = ZX_OK) ∧
          (zxio_do_vector (traceClosure g) v (s, [])).total = sumActual pre)
  | [], s => by
    refine ⟨by simp [zxio_do_vector, sumActualOk, sumActual], by simp [zxio_do_vector], ?_⟩
    intro h
    simp [zxio_do_vector] at h
  | v :: rest, s => by
    by_cases hc : v.capacity = 0
    · rw [do_vector_zero _ _ _ _ hc]
      exact do_vector_accounting g rest s
    · have hstat : (traceClosure g (s, ([] : List (ClosCall α)))
          v.buffer v.capacity).status = (g s v.buffer v.capacity).status := rfl
      have hact : (traceClosure g (s, ([] : List (ClosCall α)))
          v.buffer v.capacity).actual = (g s v.buffer v.capacity).actual := rfl
      have hstate : (traceClosure g (s, ([] : List (ClosCall α)))
          v.buffer v.capacity).state =
          ((g s v.buffer v.capacity).state,
           [⟨v.buffer, v.capacity, (g s v.buffer v.capacity).status,
             (g s v.buffer v.capacity).actual⟩]) := rfl
      by_cases hs : (g s v.buffer v.capacity).status = ZX_OK
      · by_cases ha : (g s v.buffer v.capacity).actual < v.capacity
        · rw [do_vector_short _ _ _ _ hc (by rw [hstat]; exact hs) (by rw [hact]; exact ha)]
          rw [hstate]
          refine ⟨by simp [sumActualOk, sumActual, hs, hact], by simp, ?_⟩
          intro h
          exact absurd rfl h
        · rw [do_vector_cont _ _ _ _ hc (by rw [hstat]; exact hs) (by rw [hact]; exact ha)]
          rw [hstate]
          rw [do_vector_trace_shift g rest (g s v.buffer v.capacity).state
            [⟨v.buffer, v.capacity, (g s v.buffer v.capacity).status,
              (g s v.buffer v.capacity).actual⟩]]
          obtain ⟨ih1, ih2, ih3⟩ := do_vector_accounting g rest (g s v.buffer v.capacity).state
          refine ⟨?_, ?_, ?_⟩
          · simp [sumActualOk, sumActual, hs, hact] at ih1 ⊢
            omega
          · intro c hcm
            rcases htl : (zxio_do_vector (traceClosure g) rest
                ((g s v.buffer v.capacity).state, [])).state.2 with _ | ⟨d, ds⟩
            · rw [htl] at hcm
              simp at hcm
            · rw [htl] at hcm
              simp only [List.singleton_append, List.dropLast_cons₂, List.mem_cons] at hcm
              rcases hcm with hcm | hcm
              · rw [hcm]
                exact ⟨hs, ha⟩
              · have := ih2 c
                rw [htl] at this
                exact this (by simpa using hcm)
          · intro h
            obtain ⟨pre, cfail, h1, h2, h3, h4⟩ := ih3 h
            refine ⟨⟨v.buffer, v.capacity, (g s v.buffer v.capacity).status,
                (g s v.buffer v.capacity).actual⟩ :: pre, cfail, ?_, h2, ?_, ?_⟩
            · simp [h1]
            · intro c hcm
              rcases List.mem_cons.mp hcm with hcm | hcm
              · rw [hcm]; exact hs
              · exact h3 c hcm
            · simp [sumActual, h4, hact]
      · rw [do_vector_err _ _ _ _ hc (by rw [hstat]; exact hs)]
        rw [hstate]
        refine ⟨by simp [sumActualOk, sumActual, hs], by simp, ?_⟩
        intro h
        exact ⟨[], ⟨v.buffer, v.capacity, (g s v.buffer v.capacity).status,
          (g s v.buffer v.capacity).actual⟩, by simp, rfl, by simp, by simp [sumActual]⟩

/-- Zero-capacity entries do not affect a run of the adapter at all, for any
closure and any state. -/
theorem do_vector_filter_eq {σ α : Type} (f : σ → α → Nat → ClosOut σ) :
    ∀ (v : List (ZxIovec α)) (s : σ),
      zxio_do_vector f (v.filter fun e => e.capacity != 0) s = zxio_do_vector f v s
  | [], s => rfl
  | v :: rest, s => by
    by_cases hc : v.capacity = 0
    · rw [do_vector_zero _ v rest s hc]
      have hp : (fun e : ZxIovec α => e.capacity != 0) v = false := by simp [hc]
      rw [List.filter_cons_of_neg (by simpa using hp)]
      exact do_vector_filter_eq f rest s
    · have hp : (fun e : ZxIovec α => e.capacity != 0) v = true := by simp [hc]
      rw [List.filter_cons_of_pos (by simpa using hp)]
      by_cases hs : (f s v.buffer v.capacity).status = ZX_OK
      · by_cases ha : (f s v.buffer v.capacity).actual < v.capacity
        · rw [do_vector_short _ _ _ _ hc hs ha, do_vector_short _ _ _ _ hc hs ha]
        · rw [do_vector_cont _ _ _ _ hc hs ha, do_vector_cont _ _ _ _ hc hs ha]
          rw [do_vector_filter_eq f rest (f s v.buffer v.capacity).state]
      · rw [do_vector_err _ _ _ _ hc hs, do_vector_err _ _ _ _ hc hs]

/-- Every recorded call in a generic instrumented run was made with nonzero
requested capacity. -/
theorem do_vector_calls_nonzero {σ α : Type} (g : σ → α → Nat → ClosOut σ) :
    ∀ (v : List (ZxIovec α)) (s : σ) (c : ClosCall α),
      c ∈ (zxio_do_vector (traceClosure g) v (s, [])).state.2 → c.requested ≠ 0
  | [], s, c => by simp [zxio_do_vector]
  | v :: rest, s, c => by
    by_cases hc : v.capacity = 0
    · rw [do_vector_zero _ _ _ _ hc]
      exact do_vector_calls_nonzero g rest s c
    · have hstat : (traceClosure g (s, ([] : List (ClosCall α)))
          v.buffer v.capacity).status = (g s v.buffer v.capacity).status := rfl
      have hact : (traceClosure g (s, ([] : List (ClosCall α)))
          v.buffer v.capacity).actual = (g s v.buffer v.capacity).actual := rfl
      have hstate : (traceClosure g (s, ([] : List (ClosCall α)))
          v.buffer v.capacity).state =
          ((g s v.buffer v.capacity).state,
           [⟨v.buffer, v.capacity, (g s v.buffer v.capacity).status,
             (g s v.buffer v.capacity).actual⟩]) := rfl
      by_cases hs : (g s v.buffer v.capacity).status = ZX_OK
      · by_cases ha : (g s v.buffer v.capacity).actual < v.capacity
        · rw [do_vector_short _ _ _ _ hc (by rw [hstat]; exact hs) (by rw [hact]; exact ha)]
          rw [hstate]
          intro hmem
          simp at hmem
          rw [hmem]
          exact hc
        · rw [do_vector_cont _ _ _ _ hc (by rw [hstat]; exact hs) (by rw [hact]; exact ha)]
          rw [hstate]
          rw [do_vector_trace_shift g rest (g s v.buffer v.capacity).state
            [⟨v.buffer, v.capacity, (g s v.buffer v.capacity).status,
              (g s v.buffer v.capacity).actual⟩]]
          intro hmem
          simp at hmem
          rcases hmem with hmem | hmem
          · rw [hmem]; exact hc
          · exact do_vector_calls_nonzero g rest (g s v.buffer v.capacity).state c hmem
      · rw [do_vector_err _ _ _ _ hc (by rw [hstat]; exact hs)]
        rw [hstate]
        intro hmem
        simp at hmem
        rw [hmem]
        exact hc

/-- C5: for every vector descriptor, the total returned by the vectorized-I/O
adapter equals the sum of bytes moved over the entries whose closure
invocation completed with success; every call before the last one succeeded
without moving fewer bytes than requested (iteration stops at the first short
entry or error, a short entry returning success with the partial total); and
if the closure reports an error the adapter stops, propagates that error, and
preserves the total accumulated before the failing entry. -/
theorem do_vector_total_accounting {σ α : Type} (g : σ → α → Nat → ClosOut σ)
    (vector : List (ZxIovec α)) (s : σ) :
    (zxio_do_vector_traced g vector s).total =
      sumActualOk (zxio_do_vector_traced g vector s).state.2 ∧
    (∀ c ∈ ((zxio_do_vector_traced g vector s).state.2).dropLast,
      c.status = ZX_OK ∧ ¬ c.actual < c.requested) ∧
    ((zxio_do_vector_traced g vector s).status ≠ ZX_OK →
      ∃ pre cfail,
        (zxio_do_vector_traced g vector s).state.2 = pre ++ [cfail] ∧
        cfail.status = (zxio_do_vector_traced g vector s).status ∧
        (∀ c ∈ pre, c.status = ZX_OK) ∧
        (zxio_do_vector_traced g vector s).total = sumActual pre) := by
  unfold zxio_do_vector_traced
  exact do_vector_accounting g vector s

/-- Witness for C5 at a concrete input: a run whose second closure call
fails propagates the error and keeps the first call's bytes. -/
theorem do_vector_total_accounting_witness :
    ∃ pre cfail,
      (zxio_do_vector_traced gErrW [⟨(), 2⟩, ⟨(), 3⟩] 0).state.2 = pre ++ [cfail] ∧
      cfail.status = (zxio_do_vector_traced gErrW [⟨(), 2⟩, ⟨(), 3⟩] 0).status ∧
      (∀ c ∈ pre, c.status = ZX_OK) ∧
      (zxio_do_vector_traced gErrW [⟨(), 2⟩, ⟨(), 3⟩] 0).total = sumActual pre :=
  (do_vector_total_accounting gErrW [⟨(), 2⟩, ⟨(), 3⟩] 0).2.2 (by decide)

/-- C6: zero-length descriptor entries are skipped without the closure being
invoked (removing them changes nothing about a run, for every closure, and
every recorded invocation has nonzero requested capacity), and the empty
descriptor returns success with a total of zero. -/
theorem do_vector_skips_zero_entries {σ α σ₂ α₂ : Type}
    (f : σ → α → Nat → ClosOut σ) (vector : List (ZxIovec α)) (s : σ)
    (g : σ₂ → α₂ → Nat → ClosOut σ₂) (vector₂ : List (ZxIovec α₂)) (s₂ : σ₂) :
    zxio_do_vector f (vector.filter fun e => e.capacity != 0) s =
      zxio_do_vector f vector s ∧
    zxio_do_vector f ([] : List (ZxIovec α)) s = ⟨ZX_OK, 0, s⟩ ∧
    ∀ c ∈ (zxio_do_vector_traced g vector₂ s₂).state.2, c.requested ≠ 0 := by
  refine ⟨do_vector_filter_eq f vector s, rfl, ?_⟩
  unfold zxio_do_vector_traced
  exact do_vector_calls_nonzero g vector₂ s₂

/-- Witness for C6 at a concrete input. -/
theorem do_vector_skips_zero_entries_witness : (3 : Nat) ≠ 0 :=
  (do_vector_skips_zero_entries gOkW [⟨(), 0⟩, ⟨(), 3⟩] () gOkW [⟨(), 3⟩] ()).2.2
    ⟨(), 3, ZX_OK, 3⟩ (by decide)

/-- C10: whenever the backend primitive returns success, the wrapped closure
reports through `out_actual` exactly the clipped capacity; every invocation
made at running offset equal to the resource length passes clipped capacity
0; and when the starting offset equals the length and the first entry is
nonzero, the primitive is still invoked, with clipped capacity 0, the run
ending with the primitive's status, 0 bytes reported, and the offset
unmoved. -/
theorem vmo_vector_success_actual {α : Type} (start length offset : Nat)
    (vector : List (ZxIovec α)) (fn : α → Nat → Nat → Int) (v : ZxIovec α)
    (rest : List (ZxIovec α)) :
    (∀ c ∈ (zxio_vmo_do_vector_traced start length offset vector fn).calls,
      c.status = ZX_OK → c.actual = c.clipped) ∧
    (∀ c ∈ (zxio_vmo_do_vector_traced start length offset vector fn).calls,
      c.offBefore = length → c.clipped = 0) ∧
    (offset = length → vector = v :: rest → v.capacity ≠ 0 →
      zxio_vmo_do_vector_traced start length offset vector fn =
        ⟨fn v.buffer (start + length) 0, some 0, length,
         [⟨v.buffer, length, v.capacity, 0, fn v.buffer (start + length) 0,
           0, length⟩]⟩) := by
  refine ⟨?_, ?_, ?_⟩
  · intro c hc hok
    by_cases hlen : offset > length
    · simp [zxio_vmo_do_vector_traced, hlen] at hc
    · have hcalls : (zxio_vmo_do_vector_traced start length offset vector fn).calls =
          (zxio_do_vector (zxio_vmo_closure_traced start length fn) vector
            (offset, [])).state.2 := by
        simp [zxio_vmo_do_vector_traced, hlen]
      rw [hcalls] at hc
      exact ((vmo_calls_mem start length fn vector offset c hc).2.2.2.1 hok).1
  · intro c hc hob
    by_cases hlen : offset > length
    · simp [zxio_vmo_do_vector_traced, hlen] at hc
    · have hcalls : (zxio_vmo_do_vector_traced start length offset vector fn).calls =
          (zxio_do_vector (zxio_vmo_closure_traced start length fn) vector
            (offset, [])).state.2 := by
        simp [zxio_vmo_do_vector_traced, hlen]
      rw [hcalls] at hc
      have h1 := (vmo_calls_mem start length fn vector offset c hc).1
      rw [h1, hob]
      simp
  · intro ho hv hcap
    subst ho
    subst hv
    have hclos : ∀ st : Int, fn v.buffer (start + offset) 0 = st →
        zxio_vmo_closure start offset fn offset v.buffer v.capacity =
          ⟨st, if st = ZX_OK then 0 else 0, if st = ZX_OK then offset else offset⟩ := by
      intro st hst
      by_cases hok : st = ZX_OK <;>
        simp [zxio_vmo_closure, Nat.sub_self, hst, hok]
    have hclos2 : zxio_vmo_closure start offset fn offset v.buffer v.capacity =
        ⟨fn v.buffer (start + offset) 0, 0, offset⟩ := by
      have := hclos (fn v.buffer (start + offset) 0) rfl
      simpa using this
    unfold zxio_vmo_do_vector_traced
    rw [if_neg (lt_irrefl offset)]
    by_cases hok : fn v.buffer (start + offset) 0 = ZX_OK
    · rw [do_vector_short _ _ _ _ hcap
        (by rw [show (zxio_vmo_closure_traced start offset fn (offset, [])
            v.buffer v.capacity).status =
            (zxio_vmo_closure start offset fn offset v.buffer v.capacity).status
            from rfl, hclos2]; exact hok)
        (by rw [show (zxio_vmo_closure_traced start offset fn (offset, [])
            v.buffer v.capacity).actual =
            (zxio_vmo_closure start offset fn offset v.buffer v.capacity).actual
            from rfl, hclos2]; exact Nat.pos_of_ne_zero hcap)]
      rw [show (zxio_vmo_closure_traced start offset fn (offset, [])
          v.buffer v.capacity).state =
          ((zxio_vmo_closure start offset fn offset v.buffer v.capacity).state,
           [⟨v.buffer, offset, v.capacity, min v.capacity (offset - offset),
             (zxio_vmo_closure start offset fn offset v.buffer v.capacity).status,
             (zxio_vmo_closure start offset fn offset v.buffer v.capacity).actual,
             (zxio_vmo_closure start offset fn offset v.buffer v.capacity).state⟩])
          from rfl]
      rw [hclos2]
      simp [show (zxio_vmo_closure_traced start offset fn (offset, [])
          v.buffer v.capacity).actual =
          (zxio_vmo_closure start offset fn offset v.buffer v.capacity).actual
          from rfl, hclos2, Nat.sub_self, hok]
    · rw [do_vector_err _ _ _ _ hcap
        (by rw [show (zxio_vmo_closure_traced start offset fn (offset, [])
            v.buffer v.capacity).status =
            (zxio_vmo_closure start offset fn offset v.buffer v.capacity).status
            from rfl, hclos2]; exact hok)]
      rw [show (zxio_vmo_closure_traced start offset fn (offset, [])
          v.buffer v.capacity).state =
          ((zxio_vmo_closure start offset fn offset v.buffer v.capacity).state,
           [⟨v.buffer, offset, v.capacity, min v.capacity (offset - offset),
             (zxio_vmo_closure start offset fn offset v.buffer v.capacity).status,
             (zxio_vmo_closure start offset fn offset v.buffer v.capacity).actual,
             (zxio_vmo_closure start offset fn offset v.buffer v.capacity).state⟩])
          from rfl]
      rw [hclos2]
      simp [show (zxio_vmo_closure_traced start offset fn (offset, [])
          v.buffer v.capacity).status =
          (zxio_vmo_closure start offset fn offset v.buffer v.capacity).status
          from rfl, hclos2, Nat.sub_self]

/-- Witness for C10 at a concrete input: at offset equal to the length the
primitive is invoked once with clipped capacity 0 and the run succeeds with
0 bytes. -/
theorem vmo_vector_success_actual_witness :
    zxio_vmo_do_vector_traced 0 8 8 [⟨(), 5⟩] fnOkW =
      ⟨ZX_OK, some 0, 8, [⟨(), 8, 5, 0, ZX_OK, 0, 8⟩]⟩ :=
  (vmo_vector_success_actual 0 8 8 [⟨(), 5⟩] fnOkW ⟨(), 5⟩ []).2.2 rfl rfl
    (by decide)
